import Mathlib

/-!
Shallow embedding of the simulation state manager of `src/src/main.py`
(class `Simulation` built on the external REBOUND integrator).

Modelling conventions:
* Python floats are modelled as exact rationals (`ℚ`); the spec (§9) itself
  demands the exact step-range semantics `start + i * step`, `i <
  ceil((stop-start)/step)`, for the trajectory sampler, which is what
  `np.arange` computes in exact arithmetic.
* The external integrator (REBOUND) is an opaque collaborator (spec §6): it is
  modelled by an `Integrator` record supplying the label-hash function that
  assigns particle handles, the state evolution used by `integrate`, and the
  orbital-element-to-Cartesian conversion.  Claims that need properties of the
  collaborator (stable handles, injective hashing) take them as hypotheses.
* Python dicts are association lists with insertion-order semantics:
  assignment to a present key replaces the value in place, to an absent key
  appends.
* Each mutating method returns `Except Err α × Simulation`: the first
  component is the returned value or the exception raised, the second the
  state of `self` when the call ends (Python mutates in place, and a raise
  can leave a partially mutated state, so the post-state is always reported).
-/

namespace ReboundApi

/-- A particle as held by the integrator: its handle value (`particle.hash.value`),
mass, position and velocity components. -/
structure Body where
  hashv : Nat
  m : ℚ
  x : ℚ
  y : ℚ
  z : ℚ
  vx : ℚ
  vy : ℚ
  vz : ℚ
deriving DecidableEq

/-- Exceptions the embedded code can raise. -/
inductive Err where
  | valueError (msg : String)
  | keyError (k : Nat)
  | particleNotFound
  | zeroDivision
  | fileNotFound
deriving DecidableEq

/-- Python `d[k]`: first (unique, for dicts) binding of `k`. -/
def dictFind {κ α : Type} [DecidableEq κ] (k : κ) : List (κ × α) → Option α
  | [] => none
  | (k', v) :: rest => if k = k' then some v else dictFind k rest

/-- Python `d[k] = v`: replace in place if the key is present, else append. -/
def dictInsert {κ α : Type} [DecidableEq κ] (k : κ) (v : α) : List (κ × α) → List (κ × α)
  | [] => [(k, v)]
  | (k', v') :: rest => if k = k' then (k', v) :: rest else (k', v') :: dictInsert k v rest

/-- The keys of a Python dict, in insertion order. -/
def dictKeys {κ α : Type} (d : List (κ × α)) : List κ := d.map Prod.fst

/-- The state of a `Simulation` object of `src/src/main.py`:
`name`, the integrator clock `_sim.t`, the integrator's particle array
`_sim.particles`, the identity registry `_particles` (handle value ↦ label),
and `_primary` (the detached primary particle, `None` until `add_primary`). -/
structure Simulation where
  name : String
  clock : ℚ
  bodies : List Body
  particles : List (Nat × String)
  primary : Option Body
deriving DecidableEq

/-- Optional Cartesian keyword arguments of `add_object`
(`rebound.Particle` defaults each omitted component to 0). -/
structure StateKw where
  x : Option ℚ := none
  y : Option ℚ := none
  z : Option ℚ := none
  vx : Option ℚ := none
  vy : Option ℚ := none
  vz : Option ℚ := none
deriving DecidableEq

/-- Orbital-element keyword arguments of `add_from_orbital_elements`.
Their meaning is owned by the integrator; the core only forwards them. -/
structure OrbElems where
  P : Option ℚ := none
  e : Option ℚ := none
  M : Option ℚ := none
  a : Option ℚ := none
  inc : Option ℚ := none
  omega : Option ℚ := none
  Omega : Option ℚ := none
deriving DecidableEq

/-- Cartesian state produced by the integrator's element conversion. -/
structure PState where
  x : ℚ
  y : ℚ
  z : ℚ
  vx : ℚ
  vy : ℚ
  vz : ℚ
deriving DecidableEq

/-- The external integration engine (spec §6): handle assignment
(`particle.hash = label` then `particle.hash.value`), evolution of the body
states to an absolute time (`_sim.integrate`), and orbital-element-to-Cartesian
conversion relative to a primary (`rebound.Particle(primary=..., ...)`). -/
structure Integrator where
  hashFn : String → Nat
  evolve : ℚ → List Body → List Body
  fromOrbit : Body → ℚ → OrbElems → PState

/-- Model of `Simulation.__init__`: empty particle set, empty registry, no primary,
clock 0 (a fresh `rebound.Simulation` starts at `t = 0`). -/
def Simulation.init (name : String) : Simulation :=
  { name := name, clock := 0, bodies := [], particles := [], primary := none }

/-- Model of `Simulation.copy`: a fresh `Simulation(self.name)` whose `_sim` is replaced
by a deep copy of `self._sim` (same clock, same bodies) and whose `_particles`
is `self._particles.copy()`.  `_primary` is never assigned, so it keeps the
fresh instance's `None`. -/
def Simulation.copy (S : Simulation) : Simulation :=
  { name := S.name, clock := S.clock, bodies := S.bodies,
    particles := S.particles, primary := none }

/-- Model of `Simulation.add_primary`. -/
def addPrimary (I : Integrator) (S : Simulation) (m : ℚ) (hash : String) :
    Except Err Unit × Simulation :=
  if S.bodies ≠ [] then
    (.error (.valueError "Primary already exists"), S)
  else
    let h := I.hashFn hash
    let p : Body := ⟨h, m, 0, 0, 0, 0, 0, 0⟩
    (.ok (), { S with bodies := S.bodies ++ [p],
                      particles := dictInsert h hash S.particles,
                      primary := some p })

/-- Model of `Simulation.add_object`: no duplicate-label check of any kind; the particle
is handed to the integrator and registered under its handle value. -/
def addObject (I : Integrator) (S : Simulation) (m : ℚ) (hash : String)
    (kw : StateKw) : Except Err Unit × Simulation :=
  let h := I.hashFn hash
  let p : Body := ⟨h, m, kw.x.getD 0, kw.y.getD 0, kw.z.getD 0,
                   kw.vx.getD 0, kw.vy.getD 0, kw.vz.getD 0⟩
  (.ok (), { S with bodies := S.bodies ++ [p],
                    particles := dictInsert h hash S.particles })

/-- Model of `Simulation.add_from_orbital_elements`: raises before touching integrator
state when `_primary is None`; otherwise the integrator converts the elements
(relative to the detached `_primary` particle) into a Cartesian state. -/
def addFromOrbitalElements (I : Integrator) (S : Simulation) (m : ℚ)
    (hash : String) (el : OrbElems) : Except Err Unit × Simulation :=
  match S.primary with
  | none =>
      (.error (.valueError
        "Primary particle must be set before adding particles with orbital elements"), S)
  | some prim =>
      let st := I.fromOrbit prim m el
      let h := I.hashFn hash
      let p : Body := ⟨h, m, st.x, st.y, st.z, st.vx, st.vy, st.vz⟩
      (.ok (), { S with bodies := S.bodies ++ [p],
                        particles := dictInsert h hash S.particles })

/-- The fieldwise effect of `update_object`'s `setattr` loop: each supplied
keyword overwrites the corresponding attribute; omitted ones are untouched. -/
structure UpdKw where
  m : Option ℚ := none
  x : Option ℚ := none
  y : Option ℚ := none
  z : Option ℚ := none
  vx : Option ℚ := none
  vy : Option ℚ := none
  vz : Option ℚ := none
deriving DecidableEq

def applyUpd (kw : UpdKw) (b : Body) : Body :=
  { hashv := b.hashv, m := kw.m.getD b.m,
    x := kw.x.getD b.x, y := kw.y.getD b.y, z := kw.z.getD b.z,
    vx := kw.vx.getD b.vx, vy := kw.vy.getD b.vy, vz := kw.vz.getD b.vz }

/-- Model of `self._sim.particles[hash]` followed by the `setattr` loop: REBOUND's
string indexing finds the first particle whose hash matches; mutation is
in place.  `none` models the `ParticleNotFound` raise. -/
def updBodies (kw : UpdKw) (h : Nat) : List Body → Option (List Body)
  | [] => none
  | b :: rest =>
      if b.hashv = h then some (applyUpd kw b :: rest)
      else (updBodies kw h rest).map (b :: ·)

/-- Model of `Simulation.update_object`. -/
def updateObject (I : Integrator) (S : Simulation) (hash : String)
    (kw : UpdKw) : Except Err Unit × Simulation :=
  match updBodies kw (I.hashFn hash) S.bodies with
  | none => (.error .particleNotFound, S)
  | some bs => (.ok (), { S with bodies := bs })

/-- One `{'position': ..., 'velocity': ...}` record of a result dict. -/
structure Rec where
  position : ℚ × ℚ × ℚ
  velocity : ℚ × ℚ × ℚ
deriving DecidableEq

def Body.sample (b : Body) : Rec :=
  ⟨(b.x, b.y, b.z), (b.vx, b.vy, b.vz)⟩

/-- Result shape of `integrate` / `get_prediction` / `get_trajectory`:
`{name: {time: {'position': ..., 'velocity': ...}}}`. -/
abbrev History := List (String × List (ℚ × Rec))

/-- Python `result[name] = {time: rec}` — assigns a fresh inner dict (used by
`integrate` and `get_prediction`). -/
def histAssign (nm : String) (t : ℚ) (r : Rec) (hist : History) : History :=
  dictInsert nm [(t, r)] hist

/-- Python `if name not in result: result[name] = {}` then `result[name][time] = rec`
(used by `get_trajectory`). -/
def trajAdd (nm : String) (t : ℚ) (r : Rec) (hist : History) : History :=
  match dictFind nm hist with
  | none => dictInsert nm [(t, r)] hist
  | some inner => dictInsert nm (dictInsert t r inner) hist

/-- The `for particle in ...particles:` result-building loop shared by
`integrate`, `get_prediction` and `get_trajectory` (parametrised by how a
record is stored).  `self._particles[particle.hash.value]` raises `KeyError`
when a body's handle is not registered. -/
def collect (recf : String → ℚ → Rec → History → History)
    (reg : List (Nat × String)) (t : ℚ) : List Body → History → Except Err History
  | [], hist => .ok hist
  | b :: bs, hist =>
      match dictFind b.hashv reg with
      | none => .error (.keyError b.hashv)
      | some nm => collect recf reg t bs (recf nm t b.sample hist)

/-- Model of `Simulation.integrate`: `self._sim.integrate(time)` leaves the clock at
exactly `time` with the integrator-evolved body states, then the result dict
is built over all particles. -/
def integrateSim (I : Integrator) (S : Simulation) (t : ℚ) :
    Except Err History × Simulation :=
  let S' := { S with clock := t, bodies := I.evolve t S.bodies }
  (collect histAssign S'.particles S'.clock S'.bodies [], S')

/-- Lookup `...particles[target]`: REBOUND string indexing, first particle whose
hash value matches the hash of `target`. -/
def bodyFind (I : Integrator) (S : Simulation) (target : String) : Option Body :=
  S.bodies.find? (fun b => b.hashv = I.hashFn target)

/-- Model of `Simulation.get_prediction`: copies, integrates the copy, reads states
off the copy.  `self` is only read, never assigned. -/
def getPrediction (I : Integrator) (S : Simulation) (t : ℚ)
    (target : Option String) : Except Err History × Simulation :=
  let step := integrateSim I S.copy t
  match step.1 with
  | .error e => (.error e, S)
  | .ok _ =>
      let psim := step.2
      match target with
      | some tgt =>
          match bodyFind I psim tgt with
          | none => (.error .particleNotFound, S)
          | some b => (.ok [(tgt, [(psim.clock, b.sample)])], S)
      | none => (collect histAssign psim.particles psim.clock psim.bodies [], S)

/-- Model of `np.arange(start, stop, step)` in exact arithmetic: the values
`start + i*step` for `0 ≤ i < ⌈(stop-start)/step⌉`; a zero step raises
`ZeroDivisionError`. -/
def arange (start stop step : ℚ) : Except Err (List ℚ) :=
  if step = 0 then .error .zeroDivision
  else .ok ((List.range (Int.ceil ((stop - start) / step)).toNat).map
      (fun i : ℕ => start + (i : ℚ) * step))

/-- One iteration of `get_trajectory`'s recording (after the copy has been
integrated to the current sample time): either the single `target` particle
or all particles, keyed at `trajectory_sim.time`. -/
def trajStep (I : Integrator) (target : Option String) (sim : Simulation)
    (hist : History) : Except Err History :=
  match target with
  | some tgt =>
      match bodyFind I sim tgt with
      | none => .error .particleNotFound
      | some b => .ok (trajAdd tgt sim.clock b.sample hist)
  | none => collect trajAdd sim.particles sim.clock sim.bodies hist

/-- The `for current_time in np.arange(...)` loop of `get_trajectory`:
integrate the copy (whose own result dict is discarded but whose exceptions
propagate), then record. -/
def trajLoop (I : Integrator) (target : Option String) :
    Simulation → History → List ℚ → Except Err History
  | _, hist, [] => .ok hist
  | sim, hist, t :: ts =>
      let step := integrateSim I sim t
      match step.1 with
      | .error e => .error e
      | .ok _ =>
          match trajStep I target step.2 hist with
          | .error e => .error e
          | .ok hist' => trajLoop I target step.2 hist' ts

/-- Model of `Simulation.get_trajectory`.  `self` is only read, never assigned. -/
def getTrajectory (I : Integrator) (S : Simulation) (end_time time_step : ℚ)
    (target : Option String) : Except Err History × Simulation :=
  let tsim := S.copy
  match arange tsim.clock end_time time_step with
  | .error e => (.error e, S)
  | .ok times => (trajLoop I target tsim [] times, S)

/-- The on-disk slots under `simulations/<name>/sim.bin`, one per name.
The persistence facility itself (`pickle`) is the external collaborator of
spec §6: it round-trips the full object graph with exact numeric state, which
the association-list store models.  `open(self.path, 'wb')` with the empty
path of an unnamed simulation raises `FileNotFoundError`. -/
abbrev Store := List (String × Simulation)

/-- Model of `Simulation.save`. -/
def save (S : Simulation) (store : Store) : Except Err Unit × Store :=
  if S.name = "" then (.error .fileNotFound, store)
  else (.ok (), dictInsert S.name S store)

/-- Model of `Simulation.load`: reads the slot for `name`; a missing file raises
`FileNotFoundError`. -/
def load (name : String) (store : Store) : Except Err Simulation :=
  match dictFind name store with
  | none => .error .fileNotFound
  | some S => .ok S

/-- One body-addition call, for reasoning about sequences of adds. -/
inductive AddOp where
  | primary (m : ℚ) (label : String)
  | object (m : ℚ) (label : String) (kw : StateKw)
  | elems (m : ℚ) (label : String) (el : OrbElems)

def AddOp.label : AddOp → String
  | .primary _ l => l
  | .object _ l _ => l
  | .elems _ l _ => l

def applyAdd (I : Integrator) (S : Simulation) : AddOp → Except Err Unit × Simulation
  | .primary m l => addPrimary I S m l
  | .object m l kw => addObject I S m l kw
  | .elems m l el => addFromOrbitalElements I S m l el

/-- Run a sequence of add calls; `none` as soon as one raises. -/
def runAdds (I : Integrator) : Simulation → List AddOp → Option Simulation
  | S, [] => some S
  | S, op :: ops =>
      match applyAdd I S op with
      | (.ok _, S') => runAdds I S' ops
      | (.error _, _) => none

/-! ### Helper lemmas about the Python-dict model -/

theorem dictKeys_nil {κ α : Type} : dictKeys ([] : List (κ × α)) = [] := rfl

theorem dictKeys_cons {κ α : Type} (k : κ) (v : α) (d : List (κ × α)) :
    dictKeys ((k, v) :: d) = k :: dictKeys d := rfl

theorem mem_dictKeys_cons {κ α : Type} {k k' : κ} {v' : α} {d : List (κ × α)}
    (h : k ∈ dictKeys ((k', v') :: d)) (hne : k ≠ k') : k ∈ dictKeys d := by
  rw [dictKeys_cons] at h
  rcases List.mem_cons.mp h with h | h
  · exact absurd h hne
  · exact h

theorem dictFind_insert_self {κ α : Type} [DecidableEq κ] (k : κ) (v : α) :
    ∀ d : List (κ × α), dictFind k (dictInsert k v d) = some v
  | [] => by simp [dictInsert, dictFind]
  | (k', v') :: rest => by
      by_cases h : k = k'
      · simp [dictInsert, dictFind, h]
      · simp [dictInsert, dictFind, h, dictFind_insert_self k v rest]

theorem dictInsert_append_of_not_mem {κ α : Type} [DecidableEq κ] {k : κ} (v : α) :
    ∀ {d : List (κ × α)}, k ∉ dictKeys d → dictInsert k v d = d ++ [(k, v)]
  | [], _ => rfl
  | (k', v') :: rest, h => by
      have hk : k ≠ k' := by
        intro he
        exact h (by rw [dictKeys_cons, he]; exact List.mem_cons_self k' _)
      have hrest : k ∉ dictKeys rest := by
        intro hm
        exact h (by rw [dictKeys_cons]; exact List.mem_cons_of_mem _ hm)
      simp [dictInsert, hk, dictInsert_append_of_not_mem v hrest]

theorem dictKeys_insert_of_mem {κ α : Type} [DecidableEq κ] {k : κ} (v : α) :
    ∀ {d : List (κ × α)}, k ∈ dictKeys d → dictKeys (dictInsert k v d) = dictKeys d
  | [], h => absurd h (by simp [dictKeys_nil])
  | (k', v') :: rest, h => by
      by_cases hk : k = k'
      · simp [dictInsert, hk, dictKeys_cons]
      · have hm : k ∈ dictKeys rest := mem_dictKeys_cons h hk
        simp [dictInsert, hk, dictKeys_cons, dictKeys_insert_of_mem (d := rest) v hm]

theorem dictInsert_length_of_mem {κ α : Type} [DecidableEq κ] {k : κ} (v : α)
    {d : List (κ × α)} (h : k ∈ dictKeys d) :
    (dictInsert k v d).length = d.length := by
  have hkeys := dictKeys_insert_of_mem (k := k) v h
  have h1 : (dictInsert k v d).length = (dictKeys (dictInsert k v d)).length := by
    simp [dictKeys]
  have h2 : d.length = (dictKeys d).length := by simp [dictKeys]
  rw [h1, hkeys, ← h2]

theorem dictFind_of_mem_keys {κ α : Type} [DecidableEq κ] {k : κ} :
    ∀ {d : List (κ × α)}, k ∈ dictKeys d → ∃ v, dictFind k d = some v
  | [], h => absurd h (by simp [dictKeys_nil])
  | (k', v') :: rest, h => by
      by_cases hk : k = k'
      · exact ⟨v', by simp [dictFind, hk]⟩
      · obtain ⟨v, hv⟩ := dictFind_of_mem_keys (d := rest) (mem_dictKeys_cons h hk)
        exact ⟨v, by simp [dictFind, hk, hv]⟩

/-- Concrete integrator used to instantiate the claims' witnesses: handles are
label lengths, evolution freezes the states, element conversion returns the
origin state. -/
def wItg : Integrator :=
  { hashFn := String.length, evolve := fun _ bs => bs,
    fromOrbit := fun _ _ _ => ⟨0, 0, 0, 0, 0, 0⟩ }

/-- Concrete one-body simulation used by witnesses ("p" is registered under
its handle `("p").length = 1`). -/
def wSim : Simulation :=
  { name := "demo", clock := 0,
    bodies := [⟨1, 1, 0, 0, 0, 0, 0, 0⟩],
    particles := [(1, "p")], primary := none }

/-- Concrete simulation with a primary set, used by witnesses. -/
def wSimP : Simulation :=
  { name := "demo", clock := 0,
    bodies := [⟨3, 5, 0, 0, 0, 0, 0, 0⟩],
    particles := [(3, "sun")], primary := some ⟨3, 5, 0, 0, 0, 0, 0, 0⟩ }

/-! ### C1 — non-destruction of the live instance -/

/-- C1. Non-destruction of the live instance: for every simulation `S` and
every `get_prediction`/`get_trajectory` call, the state of `S` after the call
is exactly the state before it — same clock, same body list (hence same count
and every body's mass, position and velocity), same registry and primary.
The calls operate on `S.copy`, a value sharing no mutable state with `S`. -/
theorem getPrediction_getTrajectory_preserve_self (I : Integrator)
    (S : Simulation) (t endT stepT : ℚ) (target : Option String) :
    (getPrediction I S t target).2 = S ∧
    (getTrajectory I S endT stepT target).2 = S := by
  constructor
  · unfold getPrediction
    cases h : (integrateSim I S.copy t).1 with
    | error e => simp [h]
    | ok r =>
      simp only [h]
      cases target with
      | none => rfl
      | some tgt =>
        cases hb : bodyFind I (integrateSim I S.copy t).2 tgt <;> simp [hb]
  · unfold getTrajectory
    cases h : arange S.copy.clock endT stepT <;> simp [h]

/-! ### C5 — primary can be added at most once -/

/-- The error branch of `add_primary`, shared between claims. -/
theorem addPrimary_nonempty (I : Integrator) (S : Simulation) (m : ℚ)
    (label : String) (h : S.bodies ≠ []) :
    addPrimary I S m label = (.error (.valueError "Primary already exists"), S) := by
  unfold addPrimary
  rw [if_pos h]

/-- C5. Primary-once: on any simulation whose body catalog is non-empty (in
particular after one successful `add_primary`), a further `add_primary` raises
`ValueError('Primary already exists')` and leaves the whole state — body
count, registry, primary designation — unchanged. -/
theorem addPrimary_fails_on_nonempty (I : Integrator) (S : Simulation)
    (m : ℚ) (label : String) (h : S.bodies ≠ []) :
    addPrimary I S m label = (.error (.valueError "Primary already exists"), S) ∧
    (addPrimary I S m label).2.bodies.length = S.bodies.length ∧
    (addPrimary I S m label).2.particles = S.particles ∧
    (addPrimary I S m label).2.primary = S.primary := by
  have he := addPrimary_nonempty I S m label h
  exact ⟨he, by rw [he], by rw [he], by rw [he]⟩

theorem addPrimary_fails_on_nonempty_witness :
    addPrimary wItg wSim 1 "q" =
      (.error (.valueError "Primary already exists"), wSim) ∧
    (addPrimary wItg wSim 1 "q").2.bodies.length = wSim.bodies.length ∧
    (addPrimary wItg wSim 1 "q").2.particles = wSim.particles ∧
    (addPrimary wItg wSim 1 "q").2.primary = wSim.primary :=
  addPrimary_fails_on_nonempty wItg wSim 1 "q" (by simp [wSim])

/-! ### C6 — orbital-element addition requires a primary -/

/-- The error branch of `add_from_orbital_elements`, shared between claims. -/
theorem addFromOrbitalElements_noPrimary (I : Integrator) (S : Simulation)
    (m : ℚ) (label : String) (el : OrbElems) (h : S.primary = none) :
    addFromOrbitalElements I S m label el =
      (.error (.valueError
        "Primary particle must be set before adding particles with orbital elements"), S) := by
  unfold addFromOrbitalElements
  rw [h]

/-- C6. Elements-require-primary: when `_primary` is unset,
`add_from_orbital_elements` raises the no-primary `ValueError` before touching
any state: the body list and the registry are exactly as before, so zero
bodies are added. -/
theorem addFromOrbitalElements_requires_primary (I : Integrator)
    (S : Simulation) (m : ℚ) (label : String) (el : OrbElems)
    (h : S.primary = none) :
    addFromOrbitalElements I S m label el =
      (.error (.valueError
        "Primary particle must be set before adding particles with orbital elements"), S) ∧
    (addFromOrbitalElements I S m label el).2.bodies = S.bodies ∧
    (addFromOrbitalElements I S m label el).2.particles = S.particles := by
  have he := addFromOrbitalElements_noPrimary I S m label el h
  exact ⟨he, by rw [he], by rw [he]⟩

theorem addFromOrbitalElements_requires_primary_witness :
    addFromOrbitalElements wItg wSim 1 "q" {} =
      (.error (.valueError
        "Primary particle must be set before adding particles with orbital elements"), wSim) ∧
    (addFromOrbitalElements wItg wSim 1 "q" {}).2.bodies = wSim.bodies ∧
    (addFromOrbitalElements wItg wSim 1 "q" {}).2.particles = wSim.particles :=
  addFromOrbitalElements_requires_primary wItg wSim 1 "q" {} rfl

/-! ### C10 — `copy` drops the primary designation -/

/-- C10. `Simulation.copy` never assigns `_primary`, so the copy's primary is
`None` even though the copied integrator state still holds the primary body;
consequently `add_from_orbital_elements` raises the no-primary error on the
copy while the same call succeeds on the original. -/
theorem copy_drops_primary (I : Integrator) (S : Simulation) (m : ℚ)
    (label : String) (el : OrbElems) (p : Body) (h : S.primary = some p) :
    S.copy.primary = none ∧
    S.copy.bodies = S.bodies ∧
    addFromOrbitalElements I S.copy m label el =
      (.error (.valueError
        "Primary particle must be set before adding particles with orbital elements"), S.copy) ∧
    (addFromOrbitalElements I S m label el).1 = .ok () := by
  refine ⟨rfl, rfl, addFromOrbitalElements_noPrimary I S.copy m label el rfl, ?_⟩
  unfold addFromOrbitalElements
  rw [h]

theorem copy_drops_primary_witness :
    wSimP.copy.primary = none ∧
    wSimP.copy.bodies = wSimP.bodies ∧
    addFromOrbitalElements wItg wSimP.copy 1 "q" {} =
      (.error (.valueError
        "Primary particle must be set before adding particles with orbital elements"), wSimP.copy) ∧
    (addFromOrbitalElements wItg wSimP 1 "q" {}).1 = .ok () :=
  copy_drops_primary wItg wSimP 1 "q" {} ⟨3, 5, 0, 0, 0, 0, 0, 0⟩ rfl

/-! ### C7 — round-trip persistence -/

/-- C7. Round-trip persistence: for a simulation with a non-empty name,
`save` succeeds and an immediate `load` of that name returns a simulation
equal to `S` — identical clock, identical body states (exact rational
equality of mass, position, velocity) and identical handle↔label registry. -/
theorem save_load_roundtrip (S : Simulation) (store : Store)
    (hn : S.name ≠ "") :
    (save S store).1 = .ok () ∧
    load S.name (save S store).2 = .ok S ∧
    ∀ S', load S.name (save S store).2 = .ok S' →
      S'.clock = S.clock ∧ S'.bodies = S.bodies ∧ S'.particles = S.particles := by
  have h2 : (save S store).2 = dictInsert S.name S store := by
    unfold save
    rw [if_neg hn]
  have h1 : (save S store).1 = .ok () := by
    unfold save
    rw [if_neg hn]
  have hload : load S.name (save S store).2 = .ok S := by
    rw [h2]
    unfold load
    rw [dictFind_insert_self]
  refine ⟨h1, hload, ?_⟩
  intro S' hS'
  rw [hload] at hS'
  cases hS'
  exact ⟨rfl, rfl, rfl⟩

theorem save_load_roundtrip_witness :
    (save wSim []).1 = .ok () ∧
    load wSim.name (save wSim []).2 = .ok wSim ∧
    ∀ S', load wSim.name (save wSim []).2 = .ok S' →
      S'.clock = wSim.clock ∧ S'.bodies = wSim.bodies ∧ S'.particles = wSim.particles :=
  save_load_roundtrip wSim [] (by simp [wSim])

/-! ### C9 — no core-side duplicate-label validation -/

/-- C9. No core-side duplicate-label validation: `add_object` with a label
whose handle is already registered performs no duplicate check and raises no
error of its own; the body is appended (count + 1) while the registry keeps a
single entry for that handle (same keys, same length, value overwritten), so
the registry count drops below the body count. -/
theorem addObject_duplicate_label (I : Integrator) (S : Simulation) (m : ℚ)
    (label : String) (kw : StateKw)
    (hk : I.hashFn label ∈ dictKeys S.particles) :
    (addObject I S m label kw).1 = .ok () ∧
    (addObject I S m label kw).2.bodies.length = S.bodies.length + 1 ∧
    (addObject I S m label kw).2.particles.length = S.particles.length ∧
    dictKeys (addObject I S m label kw).2.particles = dictKeys S.particles ∧
    dictFind (I.hashFn label) (addObject I S m label kw).2.particles = some label := by
  unfold addObject
  refine ⟨rfl, by simp, ?_, ?_, ?_⟩
  · simpa using dictInsert_length_of_mem (k := I.hashFn label) label hk
  · simpa using dictKeys_insert_of_mem (k := I.hashFn label) label hk
  · simpa using dictFind_insert_self (I.hashFn label) label S.particles

theorem addObject_duplicate_label_witness :
    (addObject wItg wSim 2 "q" {}).1 = .ok () ∧
    (addObject wItg wSim 2 "q" {}).2.bodies.length = wSim.bodies.length + 1 ∧
    (addObject wItg wSim 2 "q" {}).2.particles.length = wSim.particles.length ∧
    dictKeys (addObject wItg wSim 2 "q" {}).2.particles = dictKeys wSim.particles ∧
    dictFind (wItg.hashFn "q") (addObject wItg wSim 2 "q" {}).2.particles = some "q" :=
  addObject_duplicate_label wItg wSim 2 "q" {} (by simp [wSim, wItg, dictKeys]; rfl)

/-! ### C8 — partial update semantics of `update_object` -/

theorem updBodies_eq_none {kw : UpdKw} {h : Nat} :
    ∀ {bs : List Body}, (∀ b ∈ bs, b.hashv ≠ h) → updBodies kw h bs = none
  | [], _ => rfl
  | b :: rest, hall => by
      have hb : b.hashv ≠ h := hall b (List.mem_cons_self b rest)
      have hrest : updBodies kw h rest = none :=
        updBodies_eq_none (fun b' hb' => hall b' (List.mem_cons_of_mem _ hb'))
      simp [updBodies, hb, hrest]

theorem updBodies_eq_some (kw : UpdKw) (h : Nat) (b : Body) (post : List Body)
    (hb : b.hashv = h) :
    ∀ (pre : List Body), (∀ b' ∈ pre, b'.hashv ≠ h) →
      updBodies kw h (pre ++ b :: post) = some (pre ++ applyUpd kw b :: post)
  | [], _ => by simp [updBodies, hb]
  | b' :: pre, hall => by
      have hb' : b'.hashv ≠ h := hall b' (List.mem_cons_self _ _)
      have hrec := updBodies_eq_some kw h b post hb pre
        (fun x hx => hall x (List.mem_cons_of_mem _ hx))
      simp [updBodies, hb', hrec]

/-- C8. Partial update semantics: when the label's handle matches a body
(`pre` lists the earlier, non-matching bodies — on states built by the add
operations the handle of a registered label always matches exactly one body),
`update_object` succeeds and replaces only that body, applying exactly the
supplied fields and keeping every omitted field; the clock, the registry, the
remaining bodies and the body count are untouched.  When no body matches the
label's handle, it raises the lookup error (`rebound.ParticleNotFound`) and
mutates nothing. -/
theorem updateObject_partial_update (I : Integrator) (S : Simulation)
    (label : String) (kw : UpdKw) :
    (∀ pre b post,
        S.bodies = pre ++ b :: post →
        (∀ b' ∈ pre, b'.hashv ≠ I.hashFn label) →
        b.hashv = I.hashFn label →
        updateObject I S label kw =
          (.ok (), { S with bodies := pre ++ applyUpd kw b :: post }) ∧
        (applyUpd kw b).hashv = b.hashv ∧
        (kw.m = none → (applyUpd kw b).m = b.m) ∧
        (∀ q, kw.m = some q → (applyUpd kw b).m = q) ∧
        (kw.x = none → (applyUpd kw b).x = b.x) ∧
        (∀ q, kw.x = some q → (applyUpd kw b).x = q) ∧
        (kw.y = none → (applyUpd kw b).y = b.y) ∧
        (∀ q, kw.y = some q → (applyUpd kw b).y = q) ∧
        (kw.z = none → (applyUpd kw b).z = b.z) ∧
        (∀ q, kw.z = some q → (applyUpd kw b).z = q) ∧
        (kw.vx = none → (applyUpd kw b).vx = b.vx) ∧
        (∀ q, kw.vx = some q → (applyUpd kw b).vx = q) ∧
        (kw.vy = none → (applyUpd kw b).vy = b.vy) ∧
        (∀ q, kw.vy = some q → (applyUpd kw b).vy = q) ∧
        (kw.vz = none → (applyUpd kw b).vz = b.vz) ∧
        (∀ q, kw.vz = some q → (applyUpd kw b).vz = q) ∧
        ({ S with bodies := pre ++ applyUpd kw b :: post }).particles = S.particles ∧
        ({ S with bodies := pre ++ applyUpd kw b :: post }).clock = S.clock ∧
        (pre ++ applyUpd kw b :: post).length = S.bodies.length) ∧
    ((∀ b ∈ S.bodies, b.hashv ≠ I.hashFn label) →
        updateObject I S label kw = (.error .particleNotFound, S)) := by
  constructor
  · intro pre b post hsplit hpre hb
    have hupd : updBodies kw (I.hashFn label) S.bodies =
        some (pre ++ applyUpd kw b :: post) := by
      rw [hsplit]
      exact updBodies_eq_some kw (I.hashFn label) b post hb pre hpre
    refine ⟨by unfold updateObject; rw [hupd], rfl, ?_, ?_, ?_, ?_, ?_, ?_, ?_, ?_,
      ?_, ?_, ?_, ?_, ?_, ?_, rfl, rfl, by simp [hsplit]⟩
    all_goals first
      | (intro q hq; simp [applyUpd, hq])
      | (intro hq; simp [applyUpd, hq])
  · intro hall
    have hupd : updBodies kw (I.hashFn label) S.bodies = none :=
      updBodies_eq_none hall
    unfold updateObject
    rw [hupd]

theorem updateObject_partial_update_witness :
    updateObject wItg wSim "q" { m := some 3 } =
      (.ok (), { wSim with
        bodies := [applyUpd { m := some 3 } ⟨1, 1, 0, 0, 0, 0, 0, 0⟩] }) ∧
    (applyUpd { m := some 3 } (⟨1, 1, 0, 0, 0, 0, 0, 0⟩ : Body)).m = 3 ∧
    (applyUpd { m := some 3 } (⟨1, 1, 0, 0, 0, 0, 0, 0⟩ : Body)).x = 0 ∧
    updateObject wItg wSim "zz" { m := some 3 } = (.error .particleNotFound, wSim) := by
  have h := updateObject_partial_update wItg wSim "q" { m := some 3 }
  have h1 := h.1 [] ⟨1, 1, 0, 0, 0, 0, 0, 0⟩ [] rfl (by simp) rfl
  have h2 := updateObject_partial_update wItg wSim "zz" { m := some 3 }
  refine ⟨h1.1, h1.2.2.2.1 3 rfl, h1.2.2.2.2.1 rfl, h2.2 ?_⟩
  intro b hb
  simp [wSim] at hb
  rw [hb]
  decide

/-! ### C4 — registry/catalog synchronization -/

/-- A successful add (by any of the three methods) appends exactly one body
whose handle is the label's hash and registers that handle under the label;
name and clock are untouched. -/
theorem applyAdd_ok (I : Integrator) (S : Simulation) (op : AddOp)
    (u : Unit) (S' : Simulation) (h : applyAdd I S op = (.ok u, S')) :
    ∃ b : Body, b.hashv = I.hashFn op.label ∧
      S'.bodies = S.bodies ++ [b] ∧
      S'.particles = dictInsert (I.hashFn op.label) op.label S.particles ∧
      S'.name = S.name ∧ S'.clock = S.clock := by
  cases op with
  | primary m l =>
      have h' : addPrimary I S m l = (.ok u, S') := h
      unfold addPrimary at h'
      by_cases hb : S.bodies = []
      · rw [if_neg (not_not_intro hb)] at h'
        have h2 : _ = S' := congrArg Prod.snd h'
        exact ⟨⟨I.hashFn l, m, 0, 0, 0, 0, 0, 0⟩, rfl,
          by rw [← h2] <;> rfl, by rw [← h2] <;> rfl, by rw [← h2] <;> rfl, by rw [← h2] <;> rfl⟩
      · rw [if_pos hb] at h'
        have := congrArg Prod.fst h'
        simp at this
  | object m l kw =>
      have h' : addObject I S m l kw = (.ok u, S') := h
      have h2 : _ = S' := congrArg Prod.snd h'
      exact ⟨⟨I.hashFn l, m, kw.x.getD 0, kw.y.getD 0, kw.z.getD 0,
        kw.vx.getD 0, kw.vy.getD 0, kw.vz.getD 0⟩, rfl,
        by rw [← h2] <;> rfl, by rw [← h2] <;> rfl, by rw [← h2] <;> rfl, by rw [← h2] <;> rfl⟩
  | elems m l el =>
      have h' : addFromOrbitalElements I S m l el = (.ok u, S') := h
      cases hp : S.primary with
      | none =>
          simp only [addFromOrbitalElements, hp] at h'
          have := congrArg Prod.fst h'
          simp at this
      | some p =>
          simp only [addFromOrbitalElements, hp] at h'
          have h2 : _ = S' := congrArg Prod.snd h'
          exact ⟨⟨I.hashFn l, m, (I.fromOrbit p m el).x, (I.fromOrbit p m el).y,
            (I.fromOrbit p m el).z, (I.fromOrbit p m el).vx, (I.fromOrbit p m el).vy,
            (I.fromOrbit p m el).vz⟩, rfl,
            by rw [← h2] <;> rfl, by rw [← h2] <;> rfl, by rw [← h2] <;> rfl, by rw [← h2] <;> rfl⟩

/-- Invariant of `runAdds`: starting from a state whose registry is exactly
the (hash, label) pairs of a label list `L` and whose bodies carry exactly the
hashes of `L`, a successful collision-free add sequence extends both in
lock-step. -/
theorem runAdds_sync (I : Integrator) :
    ∀ (ops : List AddOp) (L : List String) (S S' : Simulation),
      S.particles = L.map (fun l => (I.hashFn l, l)) →
      S.bodies.map Body.hashv = L.map I.hashFn →
      ((L ++ ops.map AddOp.label).map I.hashFn).Nodup →
      runAdds I S ops = some S' →
      S'.particles = (L ++ ops.map AddOp.label).map (fun l => (I.hashFn l, l)) ∧
      S'.bodies.map Body.hashv = (L ++ ops.map AddOp.label).map I.hashFn
  | [], L, S, S', hpart, hbody, _, hrun => by
      cases hrun
      simpa using ⟨hpart, hbody⟩
  | op :: ops, L, S, S', hpart, hbody, hnd, hrun => by
      unfold runAdds at hrun
      cases happ : applyAdd I S op with
      | mk fst S₁ =>
          rw [happ] at hrun
          cases fst with
          | error e => exact absurd hrun (by simp)
          | ok u =>
              obtain ⟨b, hbh, hb1, hp1, _, _⟩ := applyAdd_ok I S op u S₁ happ
              have hfresh : I.hashFn op.label ∉ dictKeys S.particles := by
                rw [hpart]
                intro hmem
                have hmem' : I.hashFn op.label ∈ L.map I.hashFn := by
                  simpa [dictKeys, List.map_map] using hmem
                have hnd' := hnd
                rw [List.map_append, List.nodup_append] at hnd'
                exact hnd'.2.2 hmem' (by simp)
              have hp1' : S₁.particles =
                  (L ++ [op.label]).map (fun l => (I.hashFn l, l)) := by
                rw [hp1, dictInsert_append_of_not_mem _ hfresh, hpart]
                simp
              have hb1' : S₁.bodies.map Body.hashv = (L ++ [op.label]).map I.hashFn := by
                rw [hb1]
                simp [hbody, hbh]
              have hnd'' : (((L ++ [op.label]) ++ ops.map AddOp.label).map I.hashFn).Nodup := by
                simpa using hnd
              have := runAdds_sync I ops (L ++ [op.label]) S₁ S' hp1' hb1' hnd'' hrun
              simpa using this

/-- C4. Registry/catalog synchronization: after any successful sequence of
`add_primary` / `add_object` / `add_from_orbital_elements` calls whose labels
map to pairwise-distinct handles (distinct labels plus collision-free handle
assignment by the integrator), the registry has exactly as many entries as
the integrator has bodies, the registry's handle keys are exactly the bodies'
handles (in order, no handle in one structure without the other), the keys
are unique, and every body's handle resolves to exactly one label. -/
theorem runAdds_registry_catalog_sync (I : Integrator) (name : String)
    (ops : List AddOp) (S' : Simulation)
    (hnd : ((ops.map AddOp.label).map I.hashFn).Nodup)
    (hrun : runAdds I (Simulation.init name) ops = some S') :
    S'.particles.length = S'.bodies.length ∧
    S'.bodies.map Body.hashv = dictKeys S'.particles ∧
    (dictKeys S'.particles).Nodup ∧
    ∀ b ∈ S'.bodies, ∃ l, dictFind b.hashv S'.particles = some l := by
  obtain ⟨hpart, hbody⟩ := runAdds_sync I ops [] (Simulation.init name) S'
    rfl rfl (by simpa using hnd) hrun
  simp only [List.nil_append] at hpart hbody
  have hkeys : dictKeys S'.particles = (ops.map AddOp.label).map I.hashFn := by
    rw [hpart, dictKeys, List.map_map]
    rfl
  refine ⟨?_, ?_, ?_, ?_⟩
  · rw [hpart]
    have : S'.bodies.length = (S'.bodies.map Body.hashv).length := by simp
    rw [this, hbody]
    simp
  · rw [hbody, hkeys]
  · rw [hkeys]; exact hnd
  · intro b hb
    have : b.hashv ∈ dictKeys S'.particles := by
      rw [hkeys, ← hbody]
      exact List.mem_map_of_mem Body.hashv hb
    exact dictFind_of_mem_keys this

theorem runAdds_registry_catalog_sync_witness :
    ∃ S', runAdds wItg (Simulation.init "demo")
        [.primary 5 "sun", .object 1 "p1" {}, .elems 2 "moon" {}] = some S' ∧
      (S'.particles.length = S'.bodies.length ∧
       S'.bodies.map Body.hashv = dictKeys S'.particles ∧
       (dictKeys S'.particles).Nodup ∧
       ∀ b ∈ S'.bodies, ∃ l, dictFind b.hashv S'.particles = some l) := by
  refine ⟨_, rfl, runAdds_registry_catalog_sync wItg "demo"
    [.primary 5 "sun", .object 1 "p1" {}, .elems 2 "moon" {}] _ (by decide) rfl⟩

/-! ### C3 — trajectory sample times: further dict lemmas -/

theorem dictFind_some_mem {κ α : Type} [DecidableEq κ] {k : κ} {v : α} :
    ∀ {d : List (κ × α)}, dictFind k d = some v → (k, v) ∈ d
  | [], h => by simp [dictFind] at h
  | (k', v') :: rest, h => by
      by_cases hk : k = k'
      · simp [dictFind, hk] at h
        simp [hk, h]
      · simp only [dictFind, if_neg hk] at h
        exact List.mem_cons_of_mem _ (dictFind_some_mem h)

theorem dictFind_none_not_mem {κ α : Type} [DecidableEq κ] {k : κ} :
    ∀ {d : List (κ × α)}, dictFind k d = none → k ∉ dictKeys d
  | [], _ => by simp [dictKeys_nil]
  | (k', v') :: rest, h => by
      by_cases hk : k = k'
      · simp [dictFind, hk] at h
      · simp only [dictFind, if_neg hk] at h
        rw [dictKeys_cons]
        intro hmem
        rcases List.mem_cons.mp hmem with h1 | h1
        · exact hk h1
        · exact dictFind_none_not_mem h h1

theorem mem_dictInsert {κ α : Type} [DecidableEq κ] {k : κ} {v : α} :
    ∀ {d : List (κ × α)} {p : κ × α}, p ∈ dictInsert k v d → p ∈ d ∨ p = (k, v)
  | [], p, h => by simpa [dictInsert] using h
  | (k', v') :: rest, p, h => by
      by_cases hk : k = k'
      · simp only [dictInsert, if_pos hk] at h
        rcases List.mem_cons.mp h with h1 | h1
        · right; rw [h1, hk]
        · left; exact List.mem_cons_of_mem _ h1
      · simp only [dictInsert, if_neg hk] at h
        rcases List.mem_cons.mp h with h1 | h1
        · left; rw [h1]; exact List.mem_cons_self _ _
        · rcases mem_dictInsert h1 with h2 | h2
          · left; exact List.mem_cons_of_mem _ h2
          · right; exact h2

theorem self_mem_dictInsert {κ α : Type} [DecidableEq κ] (k : κ) (v : α) :
    ∀ (d : List (κ × α)), (k, v) ∈ dictInsert k v d
  | [] => by simp [dictInsert]
  | (k', v') :: rest => by
      by_cases hk : k = k'
      · simp only [dictInsert, if_pos hk]
        rw [hk]
        exact List.mem_cons_self _ _
      · simp only [dictInsert, if_neg hk]
        exact List.mem_cons_of_mem _ (self_mem_dictInsert k v rest)

theorem mem_dictInsert_of_ne {κ α : Type} [DecidableEq κ] {k k' : κ} (v : α)
    {v' : α} (hne : k' ≠ k) :
    ∀ {d : List (κ × α)}, (k', v') ∈ d → (k', v') ∈ dictInsert k v d
  | [], h => by simp at h
  | (k₀, v₀) :: rest, h => by
      by_cases hk : k = k₀
      · simp only [dictInsert, if_pos hk]
        rcases List.mem_cons.mp h with h1 | h1
        · exact absurd (congrArg Prod.fst h1) (by simpa using fun he => hne (he.trans hk.symm))
        · exact List.mem_cons_of_mem _ h1
      · simp only [dictInsert, if_neg hk]
        rcases List.mem_cons.mp h with h1 | h1
        · rw [h1]; exact List.mem_cons_self _ _
        · exact List.mem_cons_of_mem _ (mem_dictInsert_of_ne v hne h1)

theorem mem_dictKeys_dictInsert_of_mem {κ α : Type} [DecidableEq κ] {τ k : κ}
    (v : α) {d : List (κ × α)} (h : τ ∈ dictKeys d) :
    τ ∈ dictKeys (dictInsert k v d) := by
  by_cases hm : k ∈ dictKeys d
  · rwa [dictKeys_insert_of_mem v hm]
  · rw [dictInsert_append_of_not_mem v hm]
    unfold dictKeys
    rw [List.map_append]
    exact List.mem_append_left _ h

theorem mem_dictKeys_dictInsert_self {κ α : Type} [DecidableEq κ] (k : κ)
    (v : α) (d : List (κ × α)) : k ∈ dictKeys (dictInsert k v d) := by
  have := self_mem_dictInsert k v d
  exact List.mem_map_of_mem Prod.fst this

theorem dictKeys_insert_nodup {κ α : Type} [DecidableEq κ] (k : κ) (v : α)
    {d : List (κ × α)} (h : (dictKeys d).Nodup) :
    (dictKeys (dictInsert k v d)).Nodup := by
  by_cases hm : k ∈ dictKeys d
  · rwa [dictKeys_insert_of_mem v hm]
  · rw [dictInsert_append_of_not_mem v hm]
    unfold dictKeys
    rw [List.map_append]
    simp only [List.map]
    rw [List.nodup_append]
    refine ⟨h, List.nodup_singleton k, ?_⟩
    intro a ha hak
    rw [List.mem_singleton.mp hak] at ha
    exact hm ha

theorem dictFind_of_mem_nodup {κ α : Type} [DecidableEq κ] {k : κ} {v : α} :
    ∀ {d : List (κ × α)}, (k, v) ∈ d → (dictKeys d).Nodup → dictFind k d = some v
  | [], h, _ => by simp at h
  | (k', v') :: rest, h, hnd => by
      rcases List.mem_cons.mp h with h1 | h1
      · rw [show k = k' from congrArg Prod.fst h1, dictFind,
          if_pos rfl]
        exact congrArg some (congrArg Prod.snd h1).symm
      · have hk : k ≠ k' := by
          intro he
          rw [dictKeys_cons] at hnd
          have : k' ∈ dictKeys rest := by
            rw [← he]
            exact List.mem_map_of_mem Prod.fst h1
          exact (List.nodup_cons.mp hnd).1 this
        rw [dictFind, if_neg hk]
        exact dictFind_of_mem_nodup h1 (by
          rw [dictKeys_cons] at hnd
          exact (List.nodup_cons.mp hnd).2)

theorem sublist_concat_of_not_mem {α : Type} [DecidableEq α] {xs ys : List α}
    {a : α} (h : List.Sublist xs (ys ++ [a])) (ha : a ∉ xs) :
    List.Sublist xs ys := by
  rcases List.sublist_append_iff.mp h with ⟨as, bs, rfl, h1, h2⟩
  rcases List.sublist_singleton.mp h2 with rfl | rfl
  · simpa using h1
  · simp at ha

/-! ### C3 — the exact `np.arange` step-range semantics -/

/-- For a positive step, `np.arange` yields the `i`-th grid point
`start + i * step` for every `i` below `⌈(stop-start)/step⌉`: the sample grid
is strictly increasing, starts at `start` (inclusive, as soon as
`start < stop`) and stays strictly below `stop` (exclusive). -/
theorem arange_spec (t0 T h : ℚ) (hh : 0 < h) :
    ∃ times : List ℚ, arange t0 T h = .ok times ∧
      times.Pairwise (· < ·) ∧
      (∀ t ∈ times, t0 ≤ t ∧ t < T ∧ ∃ i : ℕ, t = t0 + i * h) ∧
      (t0 < T → t0 ∈ times) := by
  have hne : arange t0 T h =
      .ok ((List.range (Int.ceil ((T - t0) / h)).toNat).map
        (fun i : ℕ => t0 + i * h)) := by
    unfold arange
    rw [if_neg (ne_of_gt hh)]
  refine ⟨_, hne, ?_, ?_, ?_⟩
  · rw [List.pairwise_map]
    refine (List.pairwise_lt_range _).imp ?_
    intro a b hab
    have hab' : (a : ℚ) < b := by exact_mod_cast hab
    have := mul_lt_mul_of_pos_right hab' hh
    linarith
  · intro t ht
    obtain ⟨i, hi, rfl⟩ := List.mem_map.mp ht
    have hi' : i < (Int.ceil ((T - t0) / h)).toNat := List.mem_range.mp hi
    have hiZ : (i : ℤ) < Int.ceil ((T - t0) / h) := Int.lt_toNat.mp hi'
    have hiQ : (i : ℚ) ≤ (Int.ceil ((T - t0) / h) : ℚ) - 1 := by
      have h1 : (i : ℤ) ≤ Int.ceil ((T - t0) / h) - 1 := by omega
      exact_mod_cast h1
    have hceil : (Int.ceil ((T - t0) / h) : ℚ) - 1 < (T - t0) / h := by
      have h1 := Int.ceil_lt_add_one ((T - t0) / h)
      linarith
    have hlt : (i : ℚ) < (T - t0) / h := lt_of_le_of_lt hiQ hceil
    have hmul : (i : ℚ) * h < T - t0 := by
      have h1 := mul_lt_mul_of_pos_right hlt hh
      rwa [div_mul_cancel₀ _ (ne_of_gt hh)] at h1
    refine ⟨le_add_of_nonneg_right (by positivity), by linarith, ⟨i, rfl⟩⟩
  · intro hT
    have hpos : 0 < Int.ceil ((T - t0) / h) :=
      Int.ceil_pos.mpr (div_pos (by linarith) hh)
    have h0 : 0 ∈ List.range (Int.ceil ((T - t0) / h)).toNat :=
      List.mem_range.mpr (by omega)
    have hmem := List.mem_map_of_mem (fun i : ℕ => t0 + (i : ℚ) * h) h0
    simpa using hmem

/-! ### C3 — behaviour of one `get_trajectory` recording step -/

theorem trajAdd_keys_sub (nm : String) (t : ℚ) (r : Rec) (hist : History)
    (L : List ℚ)
    (hall : ∀ nm' ts', (nm', ts') ∈ hist → List.Sublist (dictKeys ts') (L ++ [t])) :
    ∀ nm' ts', (nm', ts') ∈ trajAdd nm t r hist →
      List.Sublist (dictKeys ts') (L ++ [t]) := by
  intro nm' ts' hmem
  cases hf : dictFind nm hist with
  | none =>
      rw [trajAdd, hf] at hmem
      rcases mem_dictInsert hmem with h1 | h1
      · exact hall _ _ h1
      · have hts : ts' = [(t, r)] := congrArg Prod.snd h1
        rw [hts]
        exact List.sublist_append_right L [t]
  | some inner =>
      rw [trajAdd, hf] at hmem
      rcases mem_dictInsert hmem with h1 | h1
      · exact hall _ _ h1
      · have hts : ts' = dictInsert t r inner := congrArg Prod.snd h1
        have hsub : List.Sublist (dictKeys inner) (L ++ [t]) :=
          hall _ _ (dictFind_some_mem hf)
        rw [hts]
        by_cases hm : t ∈ dictKeys inner
        · rwa [dictKeys_insert_of_mem r hm]
        · rw [dictInsert_append_of_not_mem r hm]
          have h2 : List.Sublist (dictKeys inner) L :=
            sublist_concat_of_not_mem hsub hm
          unfold dictKeys
          rw [List.map_append]
          exact h2.append (List.Sublist.refl _)

theorem trajAdd_presence_self (nm : String) (t : ℚ) (r : Rec) (hist : History) :
    ∃ ts', (nm, ts') ∈ trajAdd nm t r hist ∧ t ∈ dictKeys ts' := by
  cases hf : dictFind nm hist with
  | none =>
      rw [trajAdd, hf]
      exact ⟨[(t, r)], self_mem_dictInsert nm [(t, r)] hist, by simp [dictKeys]⟩
  | some inner =>
      rw [trajAdd, hf]
      exact ⟨dictInsert t r inner, self_mem_dictInsert _ _ _,
        mem_dictKeys_dictInsert_self t r inner⟩

theorem trajAdd_presence_mono (nm nm0 : String) (t τ : ℚ) (r : Rec)
    (hist : History) (hnd : (dictKeys hist).Nodup) (ts0 : List (ℚ × Rec))
    (hmem : (nm0, ts0) ∈ hist) (hτ : τ ∈ dictKeys ts0) :
    ∃ ts0', (nm0, ts0') ∈ trajAdd nm t r hist ∧ τ ∈ dictKeys ts0' := by
  by_cases hn : nm0 = nm
  · subst hn
    have hf : dictFind nm0 hist = some ts0 := dictFind_of_mem_nodup hmem hnd
    refine ⟨dictInsert t r ts0, ?_, mem_dictKeys_dictInsert_of_mem r hτ⟩
    rw [trajAdd, hf]
    exact self_mem_dictInsert _ _ _
  · refine ⟨ts0, ?_, hτ⟩
    cases hf : dictFind nm hist with
    | none =>
        rw [trajAdd, hf]
        exact mem_dictInsert_of_ne _ hn hmem
    | some inner =>
        rw [trajAdd, hf]
        exact mem_dictInsert_of_ne _ hn hmem

theorem trajAdd_nodup (nm : String) (t : ℚ) (r : Rec) (hist : History)
    (hnd : (dictKeys hist).Nodup) :
    (dictKeys (trajAdd nm t r hist)).Nodup := by
  unfold trajAdd
  cases dictFind nm hist with
  | none => exact dictKeys_insert_nodup _ _ hnd
  | some inner => exact dictKeys_insert_nodup _ _ hnd

/-! ### C3 — the result-building loop over the particle list -/

theorem collect_ok (recf : String → ℚ → Rec → History → History)
    (reg : List (Nat × String)) (t : ℚ) :
    ∀ (bs : List Body) (hist : History),
      (∀ b ∈ bs, (dictFind b.hashv reg).isSome) →
      ∃ hist', collect recf reg t bs hist = .ok hist'
  | [], hist, _ => ⟨hist, rfl⟩
  | b :: bs, hist, hall => by
      obtain ⟨nm, hnm⟩ := Option.isSome_iff_exists.mp (hall b (List.mem_cons_self _ _))
      obtain ⟨hist', hh⟩ := collect_ok recf reg t bs (recf nm t b.sample hist)
        (fun b' hb' => hall b' (List.mem_cons_of_mem _ hb'))
      exact ⟨hist', by unfold collect; rw [hnm]; exact hh⟩

theorem collect_trajAdd_spec (reg : List (Nat × String)) (t : ℚ) (L : List ℚ) :
    ∀ (bs : List Body) (hist : History),
      (∀ b ∈ bs, (dictFind b.hashv reg).isSome) →
      (dictKeys hist).Nodup →
      (∀ nm ts, (nm, ts) ∈ hist → List.Sublist (dictKeys ts) (L ++ [t])) →
      ∃ hist', collect trajAdd reg t bs hist = .ok hist' ∧
        (dictKeys hist').Nodup ∧
        (∀ nm ts', (nm, ts') ∈ hist' → List.Sublist (dictKeys ts') (L ++ [t])) ∧
        (∀ nm τ ts, (nm, ts) ∈ hist → τ ∈ dictKeys ts →
           ∃ ts', (nm, ts') ∈ hist' ∧ τ ∈ dictKeys ts') ∧
        (∀ b ∈ bs, ∀ nm, dictFind b.hashv reg = some nm →
           ∃ ts', (nm, ts') ∈ hist' ∧ t ∈ dictKeys ts')
  | [], hist, _, hnd, hsub =>
      ⟨hist, rfl, hnd, hsub, fun nm τ ts hm hτ => ⟨ts, hm, hτ⟩,
        fun b hb => absurd hb (List.not_mem_nil b)⟩
  | b :: bs, hist, hall, hnd, hsub => by
      obtain ⟨nm, hnm⟩ := Option.isSome_iff_exists.mp (hall b (List.mem_cons_self _ _))
      have hnd1 := trajAdd_nodup nm t b.sample hist hnd
      have hsub1 := trajAdd_keys_sub nm t b.sample hist L hsub
      obtain ⟨hist', hcol, hnd', hsub', hmono', hpres'⟩ :=
        collect_trajAdd_spec reg t L bs (trajAdd nm t b.sample hist)
          (fun b' hb' => hall b' (List.mem_cons_of_mem _ hb')) hnd1 hsub1
      refine ⟨hist', by unfold collect; rw [hnm]; exact hcol, hnd', hsub', ?_, ?_⟩
      · intro nm0 τ ts0 hmem hτ
        obtain ⟨ts1, h1, hτ1⟩ :=
          trajAdd_presence_mono nm nm0 t τ b.sample hist hnd ts0 hmem hτ
        exact hmono' nm0 τ ts1 h1 hτ1
      · intro b' hb' nm' hnm'
        rcases List.mem_cons.mp hb' with h1 | h1
        · subst h1
          have hnn : nm' = nm := by
            rw [hnm'] at hnm
            exact Option.some_inj.mp hnm
          subst hnn
          obtain ⟨ts1, hm1, ht1⟩ := trajAdd_presence_self nm' t b'.sample hist
          exact hmono' nm' t ts1 hm1 ht1
        · exact hpres' b' h1 nm' hnm'

/-! ### C3 — the sampling loop of `get_trajectory` -/

theorem trajLoop_cons (I : Integrator) (target : Option String)
    (sim : Simulation) (hist : History) (t : ℚ) (ts : List ℚ) :
    trajLoop I target sim hist (t :: ts) =
      match (integrateSim I sim t).1 with
      | .error e => .error e
      | .ok _ =>
          match trajStep I target (integrateSim I sim t).2 hist with
          | .error e => .error e
          | .ok hist' => trajLoop I target (integrateSim I sim t).2 hist' ts := rfl

/-- Invariant of `get_trajectory`'s loop (all-bodies variant): given a stable
registry and stable handles, the loop succeeds, every recorded per-name time
list is a sublist of `done ++ times`, earlier recorded times persist, and
every time of `times` gets recorded for every registered body name. -/
theorem trajLoop_none_spec (I : Integrator) (reg0 : List (Nat × String))
    (hashes0 : List Nat)
    (hev : ∀ t bs, (I.evolve t bs).map Body.hashv = bs.map Body.hashv)
    (hreg : ∀ hv ∈ hashes0, (dictFind hv reg0).isSome) :
    ∀ (times : List ℚ) (done : List ℚ) (sim : Simulation) (hist : History),
      sim.particles = reg0 →
      sim.bodies.map Body.hashv = hashes0 →
      (dictKeys hist).Nodup →
      (∀ nm ts, (nm, ts) ∈ hist → List.Sublist (dictKeys ts) done) →
      ∃ hist', trajLoop I none sim hist times = .ok hist' ∧
        (dictKeys hist').Nodup ∧
        (∀ nm ts', (nm, ts') ∈ hist' →
          List.Sublist (dictKeys ts') (done ++ times)) ∧
        (∀ nm τ ts, (nm, ts) ∈ hist → τ ∈ dictKeys ts →
          ∃ ts', (nm, ts') ∈ hist' ∧ τ ∈ dictKeys ts') ∧
        (∀ t₁ ∈ times, ∀ hv ∈ hashes0, ∀ nm, dictFind hv reg0 = some nm →
          ∃ ts', (nm, ts') ∈ hist' ∧ t₁ ∈ dictKeys ts')
  | [], done, sim, hist, _, _, hnd, hsub =>
      ⟨hist, rfl, hnd,
        fun nm ts hm => by simpa using hsub nm ts hm,
        fun nm τ ts hm hτ => ⟨ts, hm, hτ⟩,
        fun t₁ ht₁ => absurd ht₁ (List.not_mem_nil _)⟩
  | t :: ts, done, sim, hist, hpart, hbody, hnd, hsub => by
      have hbody' : (I.evolve t sim.bodies).map Body.hashv = hashes0 := by
        rw [hev]; exact hbody
      have hcall : ∀ b ∈ I.evolve t sim.bodies, (dictFind b.hashv reg0).isSome := by
        intro b hb
        exact hreg _ (by rw [← hbody']; exact List.mem_map_of_mem _ hb)
      obtain ⟨res, hres0⟩ :=
        collect_ok histAssign reg0 t (I.evolve t sim.bodies) [] hcall
      have hres : (integrateSim I sim t).1 = .ok res := by
        show collect histAssign sim.particles t (I.evolve t sim.bodies) [] = .ok res
        rw [hpart]
        exact hres0
      have hsubw : ∀ nm ts0, (nm, ts0) ∈ hist →
          List.Sublist (dictKeys ts0) (done ++ [t]) :=
        fun nm ts0 hm => (hsub nm ts0 hm).trans (List.sublist_append_left done [t])
      obtain ⟨hist1, hcol, hnd1, hsub1, hmono1, hpres1⟩ :=
        collect_trajAdd_spec reg0 t done (I.evolve t sim.bodies) hist hcall hnd hsubw
      have hstep : trajStep I none (integrateSim I sim t).2 hist = .ok hist1 := by
        show collect trajAdd sim.particles t (I.evolve t sim.bodies) hist = .ok hist1
        rw [hpart]
        exact hcol
      obtain ⟨hist', hloop, hnd', hsub', hmono', hpres'⟩ :=
        trajLoop_none_spec I reg0 hashes0 hev hreg ts (done ++ [t])
          { sim with clock := t, bodies := I.evolve t sim.bodies } hist1
          hpart hbody' hnd1 hsub1
      refine ⟨hist', ?_, hnd', ?_, ?_, ?_⟩
      · rw [trajLoop_cons, hres]
        show (match trajStep I none (integrateSim I sim t).2 hist with
          | Except.error e => Except.error e
          | Except.ok h2 => trajLoop I none (integrateSim I sim t).2 h2 ts) =
          Except.ok hist'
        rw [hstep]
        exact hloop
      · intro nm ts' hm
        have := hsub' nm ts' hm
        rwa [List.append_assoc, List.singleton_append] at this
      · intro nm τ ts0 hm hτ
        obtain ⟨ts1, h1, hτ1⟩ := hmono1 nm τ ts0 hm hτ
        exact hmono' nm τ ts1 h1 hτ1
      · intro t₁ ht₁ hv hhv nm hnm
        rcases List.mem_cons.mp ht₁ with h1 | h1
        · rw [h1]
          have hhv' : hv ∈ (I.evolve t sim.bodies).map Body.hashv := by
            rw [hbody']; exact hhv
          obtain ⟨b, hb, hbh⟩ := List.mem_map.mp hhv'
          obtain ⟨ts1, hm1, ht1'⟩ := hpres1 b hb nm (by rw [hbh]; exact hnm)
          exact hmono' nm t ts1 hm1 ht1'
        · exact hpres' t₁ h1 hv hhv nm hnm

/-- Defeq unfolding of `get_trajectory` (the copy's clock is the live clock). -/
theorem getTrajectory_eq (I : Integrator) (S : Simulation)
    (endT stepT : ℚ) (target : Option String) :
    getTrajectory I S endT stepT target =
      match arange S.clock endT stepT with
      | .error e => (.error e, S)
      | .ok times => (trajLoop I target S.copy [] times, S) := rfl

/-- C3. Trajectory sample times: with a positive step, an end time strictly
after the live clock and no target filter (given the integrator's handles are
stable under evolution and every body is registered), `get_trajectory`
returns a history in which every body label's sampled times are strictly
increasing, lie in the half-open interval `[S.clock, T)`, and are grid points
`S.clock + i * h` generated from the copy's initial clock; moreover every
registered body receives the inclusive start sample at `S.clock` itself. -/
theorem getTrajectory_sample_times (I : Integrator) (S : Simulation) (T h : ℚ)
    (hh : 0 < h) (hT : S.clock < T)
    (hev : ∀ t bs, (I.evolve t bs).map Body.hashv = bs.map Body.hashv)
    (hreg : ∀ b ∈ S.bodies, (dictFind b.hashv S.particles).isSome) :
    ∃ hist, (getTrajectory I S T h none).1 = .ok hist ∧
      (∀ nm ts, (nm, ts) ∈ hist →
        (dictKeys ts).Pairwise (· < ·) ∧
        (∀ t ∈ dictKeys ts, S.clock ≤ t ∧ t < T) ∧
        (∀ t ∈ dictKeys ts, ∃ i : ℕ, t = S.clock + i * h)) ∧
      (∀ b ∈ S.bodies, ∀ nm, dictFind b.hashv S.particles = some nm →
        ∃ ts, (nm, ts) ∈ hist ∧ S.clock ∈ dictKeys ts) := by
  obtain ⟨times, htimes, hpw, hbounds, hstart⟩ := arange_spec S.clock T h hh
  have hreg' : ∀ hv ∈ S.bodies.map Body.hashv,
      (dictFind hv S.particles).isSome := by
    intro hv hhv
    obtain ⟨b, hb, rfl⟩ := List.mem_map.mp hhv
    exact hreg b hb
  obtain ⟨hist, hloop, _, hsub, _, hpres⟩ :=
    trajLoop_none_spec I S.particles (S.bodies.map Body.hashv) hev hreg'
      times [] S.copy [] rfl rfl List.nodup_nil (by simp)
  refine ⟨hist, ?_, ?_, ?_⟩
  · rw [getTrajectory_eq, htimes]
    show trajLoop I none S.copy [] times = .ok hist
    exact hloop
  · intro nm ts hm
    have hsubts : List.Sublist (dictKeys ts) times := by
      simpa using hsub nm ts hm
    refine ⟨hpw.sublist hsubts, ?_, ?_⟩
    · intro t ht
      obtain ⟨h1, h2, _⟩ := hbounds t (hsubts.subset ht)
      exact ⟨h1, h2⟩
    · intro t ht
      exact (hbounds t (hsubts.subset ht)).2.2
  · intro b hb nm hnm
    exact hpres S.clock (hstart hT) b.hashv (List.mem_map_of_mem _ hb) nm hnm

theorem getTrajectory_sample_times_witness :
    ∃ hist, (getTrajectory wItg wSim 3 1 none).1 = .ok hist ∧
      (∀ nm ts, (nm, ts) ∈ hist →
        (dictKeys ts).Pairwise (· < ·) ∧
        (∀ t ∈ dictKeys ts, wSim.clock ≤ t ∧ t < 3) ∧
        (∀ t ∈ dictKeys ts, ∃ i : ℕ, t = wSim.clock + i * 1)) ∧
      (∀ b ∈ wSim.bodies, ∀ nm, dictFind b.hashv wSim.particles = some nm →
        ∃ ts, (nm, ts) ∈ hist ∧ wSim.clock ∈ dictKeys ts) :=
  getTrajectory_sample_times wItg wSim 3 1 (by norm_num)
    (by show (0 : ℚ) < 3; norm_num) (fun _ _ => rfl)
    (by intro b hb; simp [wSim] at hb; rw [hb]; decide)

/-! ### C2 — degenerate trajectory inputs -/

/-- C2 (evaluation at the failing inputs).  The claim requires
`get_trajectory` with `time_step <= 0`, or with `end_time` not beyond the
clock, to return an empty history.  The code violates this: on a simulation
at clock `0` with one registered body, `end_time = -5, time_step = -1` makes
`np.arange(0, -5, -1)` produce the five backward times `0, -1, -2, -3, -4`
and the call returns a non-empty history sampled at those times, while
`time_step = 0` makes `np.arange` raise `ZeroDivisionError` instead of
returning an empty history.  (For `time_step < 0` with `end_time` at or
beyond the clock, and for `time_step > 0` with `end_time <= clock`, the
range — and hence the history — is indeed empty.) -/
theorem getTrajectory_degenerate_inputs_violated :
    (getTrajectory wItg wSim (-5) (-1) none).1 =
      .ok [("p", [(0, ⟨(0, 0, 0), (0, 0, 0)⟩), (-1, ⟨(0, 0, 0), (0, 0, 0)⟩),
                  (-2, ⟨(0, 0, 0), (0, 0, 0)⟩), (-3, ⟨(0, 0, 0), (0, 0, 0)⟩),
                  (-4, ⟨(0, 0, 0), (0, 0, 0)⟩)])] ∧
    (getTrajectory wItg wSim 5 0 none).1 = .error .zeroDivision ∧
    (getTrajectory wItg wSim (-5) 1 none).1 = .ok [] ∧
    (getTrajectory wItg wSim 5 (-1) none).1 = .ok [] := by
  have h5 : (Int.ceil (((-5 : ℚ) - 0) / (-1))).toNat = 5 := by norm_num; rfl
  have hceil : Int.ceil ((-5 : ℚ)) = -5 := by
    exact_mod_cast Int.ceil_intCast (α := ℚ) (-5)
  have hm5 : (Int.ceil (((-5 : ℚ) - 0) / 1)).toNat = 0 := by
    have h1 : ((-5 : ℚ) - 0) / 1 = -5 := by norm_num
    rw [h1, hceil]
    rfl
  have hm5' : (Int.ceil (((5 : ℚ) - 0) / (-1))).toNat = 0 := by
    have h1 : ((5 : ℚ) - 0) / (-1) = -5 := by norm_num
    rw [h1, hceil]
    rfl
  refine ⟨?_, rfl, ?_, ?_⟩
  · norm_num [getTrajectory, arange, h5, Simulation.copy, wSim, wItg,
      List.range_succ, trajLoop, integrateSim, collect, trajStep, trajAdd,
      histAssign, dictFind, dictInsert, Body.sample]
  · norm_num [getTrajectory, arange, hm5, Simulation.copy, wSim, wItg, trajLoop]
  · norm_num [getTrajectory, arange, hm5', Simulation.copy, wSim, wItg, trajLoop]

end ReboundApi
